import Mathlib

/-!
Shallow embedding of the scheduler, syscall gate, interrupt controllers and
MMU table builder of the rustberrypi kernel (src/src/sched.rs, process.rs,
syscall.rs, bsp/device_driver/bcm/interrupt_controller*.rs, memory/mmu.rs),
together with theorems checking the natural-language specification against it.

Machine integers are modelled as `Nat`/`Int` with explicit two's-complement
wrapping where the source uses fixed-width arithmetic (`i8` counters, `u64`
registers).
-/

namespace RustBerry

/-- Two's-complement wrap of an integer into the `i8` range [-128, 127].
Rust release-mode `i8` arithmetic wraps; this makes that explicit. -/
def wrap8 (n : Int) : Int := (n + 128) % 256 - 128

/-- Arithmetic shift right by one on a signed value (`c >> 1` on `i8`),
which is floor division by 2. -/
def asr1 (c : Int) : Int := Int.fdiv c 2

/-- Modelled from the spec: the saved exception frame (`ExceptionContext` of
`src/arch/exception.rs`, a file not present under src/). Per spec section 3 it
holds 31 general-purpose registers plus `sp`, `elr`, `spsr` and `tpidr`
(the latter doubling as the task id). Register values are `u64`; they are
carried as `Nat` and wrapped explicitly at the few places the code computes
new values. -/
structure ExceptionContext where
  gpr : Fin 31 → Nat
  sp : Nat
  elr : Nat
  spsr : Nat
  tpidr : Nat
deriving DecidableEq

/-- The scheduler-visible data of a task apart from its `state` field.
`process.rs`'s `EventPollFn` receives `&mut Task` while the state has been
temporarily replaced (see `Task::is_ready`), so a poll function acts on
exactly these fields. -/
structure TaskData where
  context : ExceptionContext
  counter : Int
  priority : Int
  pid : Nat
deriving DecidableEq

/-- `process.rs` `TaskState`. The `WAITING` poll closure is represented by an
abstract payload type `P`; an interpretation `run : P → TaskData → Bool × TaskData`
is passed to the scheduler functions that poll it. -/
inductive TaskState (P : Type) where
  | RUNNING
  | WAITING (pred : P)
  | READY
  | ZOMBIE
deriving DecidableEq

/-- `process.rs` `Task`. `stack` is the stack's bottom physical address
(`Stack` owns a 4 KiB heap region; only its address is scheduler-visible,
via `flush_tlb`). -/
structure Task (P : Type) where
  context : ExceptionContext
  state : TaskState P
  counter : Int
  priority : Int
  pid : Nat
  stack : Nat
deriving DecidableEq

variable {P : Type}

/-- The poll-relevant fields of a task. -/
def Task.data (t : Task P) : TaskData :=
  ⟨t.context, t.counter, t.priority, t.pid⟩

/-- Write back the poll-relevant fields mutated by a poll function. -/
def Task.withData (t : Task P) (d : TaskData) : Task P :=
  { t with context := d.context, counter := d.counter,
           priority := d.priority, pid := d.pid }

/-- `process.rs` `Task::is_ready` (lines 50-69): `READY` answers true,
`RUNNING`/`ZOMBIE` false; for `WAITING` the state is swapped out, the poll
function is invoked on the task, and on `false` the waiting state is
restored. Returns the answer together with the (possibly mutated) task. -/
def Task.is_ready (run : P → TaskData → Bool × TaskData) (t : Task P) :
    Bool × Task P :=
  match t.state with
  | .READY => (true, t)
  | .RUNNING => (false, t)
  | .ZOMBIE => (false, t)
  | .WAITING p =>
    let r := run p t.data
    let t1 := t.withData r.2
    if r.1 then (true, { t1 with state := .READY })
    else (false, { t1 with state := .WAITING p })

/-- `process.rs` `Task::is_waiting`. -/
def Task.is_waiting (t : Task P) : Bool :=
  match t.state with
  | .WAITING _ => true
  | _ => false

/-- `process.rs` `Task::exit` (lines 85-95): mark `ZOMBIE`, zero counter and
priority. The stack deallocation back to the heap allocator has no
scheduler-visible effect and is not modelled. -/
def Task.exit (t : Task P) : Task P :=
  { t with state := .ZOMBIE, counter := 0, priority := 0 }

/-- `sched.rs` `Scheduler::deschedule` (lines 133-164). Walks the queue for
the first task whose `pid` matches `ec.tpidr` and decrements its counter.
With a `READY` update state and a still-positive counter it returns `false`
(no switch). Otherwise the task is removed, its counter reset to 1, its state
set to `update_state`, the incoming frame saved into its context, and it is
pushed to the back; the TLB flush (`flush_tlb`) touches only the hardware
TTBR1 register and has no effect on the queue. Returns the updated queue and
the `bool` the method returns (`true` = proceed to `schedule`). -/
def deschedule (update_state : TaskState P) (ec : ExceptionContext) :
    List (Task P) → List (Task P) × Bool
  | [] => ([], true)
  | t :: rest =>
    if t.pid = ec.tpidr then
      let t1 : Task P := { t with counter := wrap8 (t.counter - 1) }
      match update_state with
      | .READY =>
        if t1.counter > 0 then (t1 :: rest, false)
        else (rest ++ [{ t1 with counter := 1, state := .READY, context := ec }], true)
      | us =>
        (rest ++ [{ t1 with counter := 1, state := us, context := ec }], true)
    else
      let r := deschedule update_state ec rest
      (t :: r.1, r.2)

/-- One rotation pass of `sched.rs` `Scheduler::schedule` (lines 166-182),
with the loop counter (`num_tasks`) made explicit as fuel. Pops the front
task; if `is_ready()` answers true it is installed: the outgoing `ec.tpidr`
is read, the task's saved context becomes the new `ec`, the task is marked
`RUNNING` and pushed to the front, and the old `tpidr` is returned. A task
still waiting gets the aging update `counter = (counter >> 1) + priority`;
every not-installed task is pushed to the back. -/
def scheduleGo (run : P → TaskData → Bool × TaskData) :
    Nat → ExceptionContext → List (Task P) →
    List (Task P) × ExceptionContext × Nat
  | 0, ec, q => (q, ec, 0)
  | _ + 1, ec, [] => ([], ec, 0)
  | n + 1, ec, t :: rest =>
    let r := Task.is_ready run t
    if r.1 then
      ({ r.2 with state := .RUNNING } :: rest, r.2.context, ec.tpidr)
    else
      let t2 : Task P :=
        if r.2.is_waiting then
          { r.2 with counter := wrap8 (asr1 r.2.counter + r.2.priority) }
        else r.2
      scheduleGo run n ec (rest ++ [t2])

/-- `sched.rs` `Scheduler::schedule`: rotate at most `len` (= queue length)
times. Returns the queue, the (possibly overwritten) exception context, and
the returned pid (0 when no task became ready in a full rotation). -/
def schedule (run : P → TaskData → Bool × TaskData) (ec : ExceptionContext)
    (q : List (Task P)) : List (Task P) × ExceptionContext × Nat :=
  scheduleGo run q.length ec q

/-- `sched.rs` `Scheduler::exit_task` (lines 184-193): apply `Task::exit` to
the first task whose pid matches `ec.tpidr`, then `deschedule` with update
state `ZOMBIE`. -/
def exitTaskGo : List (Task P) → Nat → List (Task P)
  | [], _ => []
  | t :: rest, tpidr =>
    if t.pid = tpidr then t.exit :: rest else t :: exitTaskGo rest tpidr

/-- `sched.rs` `Scheduler::exit_task` (lines 184-193). -/
def Scheduler.exit_task (ec : ExceptionContext) (q : List (Task P)) :
    List (Task P) × Bool :=
  deschedule .ZOMBIE ec (exitTaskGo q ec.tpidr)

/-- The retry loop shared by `GlobalScheduler::switch` and
`GlobalScheduler::exit_task` (sched.rs lines 38-51 and 70-83): call
`schedule` until it returns a pid greater than 0. A fuel argument bounds the
number of iterations modelled; `none` means the loop was still running after
`fuel` iterations. -/
def scheduleLoop (run : P → TaskData → Bool × TaskData) :
    Nat → ExceptionContext → List (Task P) →
    Option (List (Task P) × ExceptionContext)
  | 0, _, _ => none
  | n + 1, ec, q =>
    let r := schedule run ec q
    if r.2.2 > 0 then some (r.1, r.2.1) else scheduleLoop run n r.2.1 r.1

/-- `sched.rs` `GlobalScheduler::switch` (lines 58-85): `deschedule`, and if
it answered `true`, loop `schedule` until it returns a nonzero pid. -/
def GlobalScheduler.switch (run : P → TaskData → Bool × TaskData)
    (fuel : Nat) (update_state : TaskState P) (ec : ExceptionContext)
    (q : List (Task P)) : Option (List (Task P) × ExceptionContext) :=
  let r := deschedule update_state ec q
  if r.2 then scheduleLoop run fuel ec r.1 else some (r.1, ec)

/-- `sched.rs` `GlobalScheduler::exit_task` (lines 31-52): `Scheduler::exit_task`
then the unconditional retry loop. -/
def GlobalScheduler.exit_task (run : P → TaskData → Bool × TaskData)
    (fuel : Nat) (ec : ExceptionContext) (q : List (Task P)) :
    Option (List (Task P) × ExceptionContext) :=
  let r := Scheduler.exit_task ec q
  scheduleLoop run fuel ec r.1

/-! ### Concrete fixtures used by witnesses -/

/-- A trivial poll interpretation for witnesses: the predicate never fires. -/
def runU : Unit → TaskData → Bool × TaskData := fun _ d => (false, d)

/-- A concrete exception context with the given `tpidr` and zeroed registers. -/
def ctx (tp : Nat) : ExceptionContext := ⟨fun _ => 0, 0, 0, 0, tp⟩

/-- A concrete task for witnesses. -/
def task0 (pid : Nat) (st : TaskState Unit) (c p : Int) : Task Unit :=
  ⟨ctx pid, st, c, p, pid, 0⟩

/-- What `schedule` does to a popped task it does not install: the poll
mutation from `is_ready`, then — if the task is still waiting — the aging
update `counter = (counter >> 1) + priority`; the task goes to the back. -/
def notReadyAdvance (run : P → TaskData → Bool × TaskData) (u : Task P) :
    Task P :=
  let t1 := (Task.is_ready run u).2
  if t1.is_waiting then
    { t1 with counter := wrap8 (asr1 t1.counter + t1.priority) }
  else t1

/-! ### The sleep syscall (`syscall.rs` `sleep_task`, lines 8-26)

Instants from `timer.current_time()` are `core::time::Duration` values since
boot; they are carried as nanosecond counts (`Nat`). `Duration::from_millis(ms)`
adds `ms * 1_000_000` nanoseconds, `as_millis()` divides by `1_000_000`
(truncating), and `Duration` comparison is numeric. The generic-timer driver
itself lives outside the scheduler and only supplies these instants. -/

/-- The environment captured by `sleep_task`'s `polling_fn` closure:
`begin = timer.current_time()` and `target_time = begin + from_millis(ms)`. -/
structure SleepPred where
  tbegin : Nat
  target_time : Nat
deriving DecidableEq

/-- `syscall.rs` `sleep_task`: the captured closure environment. -/
def mkSleepPred (now ms : Nat) : SleepPred := ⟨now, now + ms * 1000000⟩

/-- `syscall.rs` `sleep_task`'s `polling_fn` body, polled at instant
`current`: if `current > target_time`, write `x7 = 0` and
`x0 = (current - begin).as_millis() as u64` (the `u128 → u64` cast wraps mod
`2^64`) into the task's saved context and answer true; else answer false. -/
def runSleepPred (current : Nat) (p : SleepPred) (d : TaskData) :
    Bool × TaskData :=
  if current > p.target_time then
    let g := Function.update (Function.update d.context.gpr 7 0) 0
      (((current - p.tbegin) / 1000000) % 2 ^ 64)
    (true, { d with context := { d.context with gpr := g } })
  else (false, d)

/-- `syscall.rs` `sleep_task` (lines 8-26): capture the predicate and hand
the caller to `GlobalScheduler::switch` with update state `Waiting(pred)`.
`pollTime` is the instant the scheduler's later polls read from the timer. -/
def sleep_task (now ms : Nat) (pollTime fuel : Nat) (ec : ExceptionContext)
    (q : List (Task SleepPred)) :
    Option (List (Task SleepPred) × ExceptionContext) :=
  GlobalScheduler.switch (runSleepPred pollTime) fuel
    (.WAITING (mkSleepPred now ms)) ec q

/-- A concrete `SleepPred`-world task for witnesses. -/
def taskS (pid : Nat) (st : TaskState SleepPred) (c p : Int) : Task SleepPred :=
  ⟨ctx pid, st, c, p, pid, 0⟩

/-! ### The pending-IRQ iterator
(`bsp/device_driver/bcm/interrupt_controller.rs`, lines 35-50) -/

/-- `core::intrinsics::cttz` on `u64`, counting with explicit fuel per
inspected bit: 0 for an odd number, one more than the count of the halved
number otherwise. With fuel 64 (the `u64` width) this is exactly `cttz`,
including `cttz(0) = 64`. -/
def ctzF : Nat → Nat → Nat
  | 0, _ => 0
  | f + 1, m => if m % 2 = 1 then 0 else ctzF f (m / 2) + 1

/-- `cttz` of a `u64` bitmask. -/
def cttz64 (m : Nat) : Nat := ctzF 64 m

/-- `u64` bitwise NOT: complement within 64 bits (`!x = x ^ u64::MAX`). -/
def not64 (x : Nat) : Nat := x ^^^ (2 ^ 64 - 1)

/-- `Iterator::next` for `PendingIRQs`: `cttz` of the bitmask; 64 means the
mask is exhausted (`None`); otherwise the bit is cleared
(`bitmask &= !(1 << next)`) and its position yielded. -/
def pendingNext (m : Nat) : Option (Nat × Nat) :=
  let next := cttz64 m
  if next = 64 then none
  else some (next, m &&& not64 (1 <<< next))

/-- Driving the iterator to exhaustion, collecting the yielded positions and
the final bitmask. `fuel` bounds the number of `next` calls modelled; each
call clears one of at most 64 set bits, so fuel 64 reaches `None` for every
`u64` mask (`pendingRun_spec` proves the final bitmask is then 0). -/
def pendingRun : Nat → Nat → List Nat × Nat
  | 0, m => ([], m)
  | f + 1, m =>
    match pendingNext m with
    | none => ([], m)
    | some (n, m2) =>
      let r := pendingRun f m2
      (n :: r.1, r.2)

/-- The full yield sequence of `PendingIRQs(m)`. -/
def PendingIRQs (m : Nat) : List Nat := (pendingRun 64 m).1

/-- The ascending list of set-bit positions of a 64-bit mask (the reference
value the iterator is checked against). -/
def setBitPositions (m : Nat) : List Nat :=
  (List.range 64).filter (fun i => m.testBit i)

/-! ### Handler registration in the BCM interrupt controllers

`IRQDescriptor` values (`{ name, handler: &dyn IRQHandler }`) are opaque to
the registration logic and are carried as values of an abstract type `D`.
The `PeripheralIRQ`/`LocalIRQ` newtypes bound the number by
`MAX_PERIPHERAL_IRQ_NUMBER = 63` / `MAX_LOCAL_IRQ_NUMBER = 11`, so an index
is a `Fin 64` / `Fin 12`. -/

/-- `peripheral_ic.rs` `PeripheralIC::register_handler` (lines 94-107): the
64-slot handler table refuses a second registration on an occupied slot and
otherwise stores the descriptor. Returns the table after the call and the
`Result`. -/
def PeripheralIC.register_handler {D : Type} (table : Fin 64 → Option D)
    (irq : Fin 64) (d : D) : (Fin 64 → Option D) × Except String Unit :=
  if (table irq).isSome then (table, .error "IRQ handler already registered")
  else (Function.update table irq (some d), .ok ())

/-- `local_ic.rs` `LocalIC::register_handler` (lines 66-80): four per-core
12-slot tables (`handler_tables`). The occupancy test reads core 0's table
(`handler_tables[0][irq_number]`); the store writes the calling core's table
(`handler_tables[cpu::core_id()][irq_number]`). `core` is the value of
`cpu::core_id()` (a per-CPU register read, passed as a parameter). -/
def LocalIC.register_handler {D : Type} (tables : Fin 4 → Fin 12 → Option D)
    (core : Fin 4) (irq : Fin 12) (d : D) :
    (Fin 4 → Fin 12 → Option D) × Except String Unit :=
  if (tables 0 irq).isSome then (tables, .error "IRQ handler already registered")
  else (Function.update tables core
    (Function.update (tables core) irq (some d)), .ok ())

/-! ### The MMU translation-table builder (`memory/mmu.rs`) -/

/-- mmu.rs `Translation`. -/
inductive Translation where
  | Identity
  | Offset (a : Nat)
deriving DecidableEq

/-- mmu.rs `MemAttributes` (lines 33-36). -/
inductive MemAttributes where
  | CacheableDRAM
  | Device
deriving DecidableEq

/-- mmu.rs `AccessPermissions` (lines 41-44). -/
inductive AccessPermissions where
  | ReadOnly
  | ReadWrite
deriving DecidableEq

/-- mmu.rs `AttributeFields` (lines 49-53). -/
structure AttributeFields where
  mem_attributes : MemAttributes
  acc_perms : AccessPermissions
  execute_never : Bool
deriving DecidableEq

/-- mmu.rs `impl Default for AttributeFields` (lines 77-85). -/
def AttributeFields.dflt : AttributeFields := ⟨.CacheableDRAM, .ReadWrite, true⟩

/-- mmu.rs `RangeDescriptor` (lines 57-62); the `virtual_range` closure is
carried as its inclusive bounds. -/
structure RangeDescriptor where
  name : String
  virtStart : Nat
  virtEnd : Nat
  translation : Translation
  attribute_fields : AttributeFields
deriving DecidableEq

/-- mmu.rs `KernelVirtualLayout` (lines 65-71). -/
structure KernelVirtualLayout where
  max_virt_addr_inclusive : Nat
  inner : List RangeDescriptor
deriving DecidableEq

/-- `RangeInclusive::contains` on a descriptor's virtual range. -/
def RangeDescriptor.containsAddr (r : RangeDescriptor) (v : Nat) : Bool :=
  decide (r.virtStart ≤ v ∧ v ≤ r.virtEnd)

/-- mmu.rs `KernelVirtualLayout::virt_addr_properties` (lines 147-167):
reject addresses above the maximum, scan the descriptors in order for the
first whose range contains the address, translate, and fall back to an
identity mapping with default attributes. -/
def virt_addr_properties (L : KernelVirtualLayout) (virt_addr : Nat) :
    Except String (Nat × AttributeFields) :=
  if virt_addr > L.max_virt_addr_inclusive then .error "Address out of range"
  else
    match L.inner.find? (fun i => i.containsAddr virt_addr) with
    | some i =>
      let output_addr := match i.translation with
        | .Identity => virt_addr
        | .Offset a => a + (virt_addr - i.virtStart)
      .ok (output_addr, i.attribute_fields)
    | none => .ok (virt_addr, AttributeFields.dflt)

/-- `STAGE1_PAGE_DESCRIPTOR::SH` values (mmu.rs lines 225-228):
`InnerShareable = 0b11` for cacheable DRAM, `OuterShareable = 0b10` for
device memory, per the `From<AttributeFields>` impl (lines 350-361). -/
def shVal : MemAttributes → Nat
  | .CacheableDRAM => 3
  | .Device => 2

/-- `STAGE1_PAGE_DESCRIPTOR::AttrIndx` values: `mair::NORMAL = 1` for
cacheable DRAM, `mair::DEVICE = 0` for device memory (lines 300-305,
350-361). -/
def attrIndxVal : MemAttributes → Nat
  | .CacheableDRAM => 1
  | .Device => 0

/-- `STAGE1_PAGE_DESCRIPTOR::AP` values: `RO_EL1 = 0b10`, `RW_EL1 = 0b00`
(lines 231-236, 363-367). -/
def apVal : AccessPermissions → Nat
  | .ReadOnly => 2
  | .ReadWrite => 0

/-- `STAGE1_PAGE_DESCRIPTOR::PXN` value (lines 210-213, 369-374). -/
def pxnVal : Bool → Nat
  | true => 1
  | false => 0

/-- mmu.rs `From<AttributeFields> for FieldValue` (lines 347-378): the
accumulated field value `SH (offset 8) + AttrIndx (offset 2)`, then
`+= AP (offset 6)`, then `+= PXN (offset 53)`. `FieldValue` addition ORs
the shifted field encodings. -/
def attrFieldValue (af : AttributeFields) : Nat :=
  ((shVal af.mem_attributes <<< 8 ||| attrIndxVal af.mem_attributes <<< 2) |||
    apVal af.acc_perms <<< 6) ||| pxnVal af.execute_never <<< 53

/-- mmu.rs `PageDescriptor::new` (lines 380-392):
`VALID::True (bit 0) + AF::True (bit 10) + attribute_fields.into()
+ TYPE::Table (bit 1) + OUTPUT_ADDR_64KiB.val(output_addr >> 16)`; the
`OUTPUT_ADDR_64KiB` field is 32 bits wide at offset 16 and `.val` masks its
argument to the field width. -/
def PageDescriptor.new (output_addr : Nat) (af : AttributeFields) : Nat :=
  (((1 ||| 1 <<< 10) ||| attrFieldValue af) ||| 1 <<< 1) |||
    ((output_addr >>> 16) % 2 ^ 32) <<< 16

/-- mmu.rs `From<usize> for TableDescriptor` (lines 334-344):
`VALID::True + TYPE::Table + NEXT_LEVEL_TABLE_ADDR_64KiB.val(addr >> 16)`. -/
def TableDescriptor.fromAddr (next_lvl_table_addr : Nat) : Nat :=
  (1 ||| 1 <<< 1) ||| ((next_lvl_table_addr >>> 16) % 2 ^ 32) <<< 16

/-- memory.rs `map::END` (`0x3FFF_FFFF`). -/
def mapEND : Nat := 0x3FFFFFFF

/-- memory.rs `addr_space_size()` = `map::END + 1`. -/
def addr_space_size : Nat := mapEND + 1

/-- mmu.rs `ENTRIES_512_MIB = addr_space_size() >> FIVETWELVE_MIB_SHIFT`
(= 2 on the RPi3). -/
def ENTRIES_512_MIB : Nat := addr_space_size >>> 29

/-- `Result::is_ok`, used to express that the `?`-propagation inside
`populate_tt_entries` never fires. -/
def exceptIsOk {ε α : Type} : Except ε α → Bool
  | .ok _ => true
  | .error _ => false

/-- The populated translation tables: 64-bit descriptor values indexed by
`lvl2` entry number, and by `(lvl2, lvl3)` for the page descriptors. -/
structure TranslationTables where
  lvl2 : Nat → Nat
  lvl3 : Nat → Nat → Nat

/-- The page descriptor `populate_tt_entries` writes into table slot
`(l2_nr, l3_nr)`: the descriptor of the layout lookup at
`virt_addr = (l2_nr << 29) + (l3_nr << 16)` (the error arm is never taken
when population succeeds). -/
def lvl3Entry (L : KernelVirtualLayout) (l2 l3 : Nat) : Nat :=
  match virt_addr_properties L ((l2 <<< 29) + (l3 <<< 16)) with
  | .ok pa => PageDescriptor.new pa.1 pa.2
  | .error _ => 0

/-- mmu.rs `populate_tt_entries` (lines 412-427): for every `l2_nr` the
level-2 entry points at the level-3 table (`lvl3Base l2_nr` is
`TABLES.lvl3[l2_nr].base_addr_usize()`, link-time data passed as a
parameter), and every level-3 entry for
`virt_addr = (l2_nr << 29) + (l3_nr << 16)` is the page descriptor of the
layout lookup; a lookup error (only `"Address out of range"` is possible)
aborts the whole population via `?`. -/
def populate_tt_entries (L : KernelVirtualLayout) (lvl3Base : Nat → Nat) :
    Except String TranslationTables :=
  if (List.range ENTRIES_512_MIB).all (fun l2 =>
      (List.range 8192).all (fun l3 =>
        exceptIsOk (virt_addr_properties L ((l2 <<< 29) + (l3 <<< 16))))) then
    .ok ⟨fun l2 => TableDescriptor.fromAddr (lvl3Base l2), lvl3Entry L⟩
  else .error "Address out of range"

/-- Bit-field extraction from a 64-bit descriptor value:
bits `[off, off + width)`. -/
def bits (val off width : Nat) : Nat := (val >>> off) % 2 ^ width

/-- memory.rs `KERNEL_VIRTUAL_LAYOUT`'s "Device MMIO" descriptor
(lines 196-205): identity-mapped `[mmio::BASE, mmio::END_INCLUSIVE]` =
`[0x3F00_0000, 0x4000_FFFF]`, Device memory, ReadWrite, execute-never. -/
def deviceMMIODescriptor : RangeDescriptor :=
  ⟨"Device MMIO", 0x3F000000, 0x4000FFFF, .Identity, ⟨.Device, .ReadWrite, true⟩⟩

/-- A layout for witnesses: the full address space with just the MMIO
descriptor (the statically known part of `KERNEL_VIRTUAL_LAYOUT`; the
kernel-image descriptors depend on linker symbols). -/
def mmioTestLayout : KernelVirtualLayout := ⟨mapEND, [deviceMMIODescriptor]⟩

/-- The tables `populate_tt_entries` produces for `mmioTestLayout` with
level-3 base addresses 0. -/
def mmioTestTables : TranslationTables :=
  ⟨fun _ => TableDescriptor.fromAddr 0, lvl3Entry mmioTestLayout⟩

/-! ### Arithmetic helpers -/

/-- `wrap8` is the identity on values already in the `i8` range. -/
theorem wrap8_eq_self {n : Int} (h1 : -128 ≤ n) (h2 : n ≤ 127) : wrap8 n = n := by
  unfold wrap8; omega

/-! ### C1: the timer-tick deschedule step -/

theorem deschedule_cons_ne {us : TaskState P} {ec : ExceptionContext}
    {t : Task P} {q : List (Task P)} (h : t.pid ≠ ec.tpidr) :
    deschedule us ec (t :: q) =
      ((deschedule us ec q).1.cons t, (deschedule us ec q).2) := by
  simp [deschedule, h]

theorem deschedule_append_no_match {us : TaskState P} {ec : ExceptionContext}
    {pre : List (Task P)} (q : List (Task P))
    (hpre : ∀ u ∈ pre, u.pid ≠ ec.tpidr) :
    deschedule us ec (pre ++ q) =
      (pre ++ (deschedule us ec q).1, (deschedule us ec q).2) := by
  induction pre with
  | nil => simp
  | cons u pre ih =>
    have hu : u.pid ≠ ec.tpidr := hpre u (List.mem_cons_self u pre)
    rw [List.cons_append, deschedule_cons_ne hu,
      ih (fun v hv => hpre v (List.mem_cons_of_mem u hv))]
    simp

theorem deschedule_cons_ready_pos {ec : ExceptionContext} {t : Task P}
    (post : List (Task P)) (ht : t.pid = ec.tpidr)
    (hpos : 0 < wrap8 (t.counter - 1)) :
    deschedule .READY ec (t :: post) =
      ({ t with counter := wrap8 (t.counter - 1) } :: post, false) := by
  rw [deschedule, if_pos ht]
  simp only [gt_iff_lt]
  rw [if_pos hpos]

theorem deschedule_cons_ready_nonpos {ec : ExceptionContext} {t : Task P}
    (post : List (Task P)) (ht : t.pid = ec.tpidr)
    (hneg : ¬ 0 < wrap8 (t.counter - 1)) :
    deschedule .READY ec (t :: post) =
      (post ++ [{ t with counter := 1, state := .READY, context := ec }],
        true) := by
  rw [deschedule, if_pos ht]
  simp only [gt_iff_lt]
  rw [if_neg hneg]

theorem deschedule_cons_waiting {ec : ExceptionContext} {t : Task P}
    (p : P) (post : List (Task P)) (ht : t.pid = ec.tpidr) :
    deschedule (.WAITING p) ec (t :: post) =
      (post ++ [{ t with counter := 1, state := .WAITING p, context := ec }],
        true) := by
  rw [deschedule, if_pos ht]

theorem deschedule_cons_zombie {ec : ExceptionContext} {t : Task P}
    (post : List (Task P)) (ht : t.pid = ec.tpidr) :
    deschedule .ZOMBIE ec (t :: post) =
      (post ++ [{ t with counter := 1, state := .ZOMBIE, context := ec }],
        true) := by
  rw [deschedule, if_pos ht]

/-- C1. For a timer tick (update state `READY`) whose context matches task `t`
(the first match in the queue): the counter is decremented; while it stays
positive the queue keeps its shape (only that counter changed), `deschedule`
answers `false`, and `GlobalScheduler::switch` performs no switch (the queue
and the exception context come back unchanged); once the counter is no longer
positive the task is removed, the frame is saved into its context, its state
becomes the update state, its counter is reset to 1 and it moves to the back. -/
theorem deschedule_ready_tick (ec : ExceptionContext) (pre post : List (Task P))
    (t : Task P) (hpre : ∀ u ∈ pre, u.pid ≠ ec.tpidr) (ht : t.pid = ec.tpidr)
    (hlo : -128 < t.counter) (hhi : t.counter ≤ 127) :
    (0 < t.counter - 1 →
      deschedule .READY ec (pre ++ t :: post) =
        (pre ++ { t with counter := t.counter - 1 } :: post, false) ∧
      ∀ run fuel, GlobalScheduler.switch run fuel .READY ec (pre ++ t :: post) =
        some (pre ++ { t with counter := t.counter - 1 } :: post, ec)) ∧
    (t.counter - 1 ≤ 0 →
      deschedule .READY ec (pre ++ t :: post) =
        ((pre ++ post) ++
          [{ t with counter := 1, state := .READY, context := ec }], true)) := by
  have hwrap : wrap8 (t.counter - 1) = t.counter - 1 :=
    wrap8_eq_self (by omega) (by omega)
  constructor
  · intro hpos
    have hd : deschedule .READY ec (pre ++ t :: post) =
        (pre ++ { t with counter := t.counter - 1 } :: post, false) := by
      rw [deschedule_append_no_match _ hpre,
        deschedule_cons_ready_pos post ht (by rw [hwrap]; exact hpos), hwrap]
    refine ⟨hd, fun run fuel => ?_⟩
    rw [GlobalScheduler.switch, hd]
    simp
  · intro hneg
    rw [deschedule_append_no_match _ hpre,
      deschedule_cons_ready_nonpos post ht (by rw [hwrap]; omega),
      List.append_assoc]

/-- Witness for `deschedule_ready_tick` at a concrete queue: a single running
task with counter 5 keeps its slot with counter 4 and no switch happens. -/
theorem deschedule_ready_tick_witness :
    deschedule .READY (ctx 2) [task0 2 .RUNNING 5 1] =
      ([{ task0 2 .RUNNING 5 1 with counter := 4 }], false) ∧
    GlobalScheduler.switch runU 3 .READY (ctx 2) [task0 2 .RUNNING 5 1] =
      some ([{ task0 2 .RUNNING 5 1 with counter := 4 }], ctx 2) := by
  have h := deschedule_ready_tick (ctx 2) [] [] (task0 2 .RUNNING 5 1)
    (by simp) rfl (by decide) (by decide)
  have h1 := h.1 (by decide)
  constructor
  · simpa using h1.1
  · simpa using h1.2 runU 3

/-! ### C2: one scheduling pass -/

theorem scheduleGo_cons_notReady (run : P → TaskData → Bool × TaskData)
    {u : Task P} (h : (Task.is_ready run u).1 = false) (n : Nat)
    (ec : ExceptionContext) (rest : List (Task P)) :
    scheduleGo run (n + 1) ec (u :: rest) =
      scheduleGo run n ec (rest ++ [notReadyAdvance run u]) := by
  simp only [scheduleGo, h]
  simp [notReadyAdvance]

theorem scheduleGo_cons_ready (run : P → TaskData → Bool × TaskData)
    {u : Task P} (h : (Task.is_ready run u).1 = true) (n : Nat)
    (ec : ExceptionContext) (rest : List (Task P)) :
    scheduleGo run (n + 1) ec (u :: rest) =
      ({ (Task.is_ready run u).2 with state := .RUNNING } :: rest,
        (Task.is_ready run u).2.context, ec.tpidr) := by
  simp only [scheduleGo, h]
  simp

theorem scheduleGo_skip (run : P → TaskData → Bool × TaskData)
    (pre : List (Task P)) :
    ∀ (f : Nat) (ec : ExceptionContext) (rest : List (Task P)),
      (∀ u ∈ pre, (Task.is_ready run u).1 = false) →
      scheduleGo run (pre.length + f) ec (pre ++ rest) =
        scheduleGo run f ec (rest ++ pre.map (notReadyAdvance run)) := by
  induction pre with
  | nil => intro f ec rest _; simp
  | cons u pre ih =>
    intro f ec rest hall
    have hu : (Task.is_ready run u).1 = false := hall u (List.mem_cons_self u pre)
    have hlen : (u :: pre).length + f = (pre.length + f) + 1 := by
      simp [Nat.add_comm, Nat.add_assoc, Nat.add_left_comm]
    rw [hlen, List.cons_append, scheduleGo_cons_notReady run hu,
      List.append_assoc,
      ih f ec (rest ++ [notReadyAdvance run u])
        (fun v hv => hall v (List.mem_cons_of_mem u hv))]
    simp

theorem schedule_all_notReady (run : P → TaskData → Bool × TaskData)
    (ec : ExceptionContext) (q : List (Task P))
    (hall : ∀ u ∈ q, (Task.is_ready run u).1 = false) :
    schedule run ec q = (q.map (notReadyAdvance run), ec, 0) := by
  have h0 : schedule run ec q = scheduleGo run (q.length + 0) ec (q ++ []) := by
    simp [schedule]
  rw [h0, scheduleGo_skip run q 0 ec [] hall]
  simp [scheduleGo]

theorem schedule_install (run : P → TaskData → Bool × TaskData)
    (ec : ExceptionContext) (pre post : List (Task P)) (t : Task P)
    (hpre : ∀ u ∈ pre, (Task.is_ready run u).1 = false)
    (ht : (Task.is_ready run t).1 = true) :
    schedule run ec (pre ++ t :: post) =
      ({ (Task.is_ready run t).2 with state := .RUNNING } ::
          (post ++ pre.map (notReadyAdvance run)),
        (Task.is_ready run t).2.context, ec.tpidr) := by
  have h0 : schedule run ec (pre ++ t :: post) =
      scheduleGo run (pre.length + (post.length + 1)) ec
        (pre ++ t :: post) := by
    simp [schedule, Nat.add_comm]
  rw [h0, scheduleGo_skip run pre (post.length + 1) ec (t :: post) hpre,
    List.cons_append, scheduleGo_cons_ready run ht]

/-- C2. One scheduling pass over `pre ++ t :: post` where `t` is the first
task whose `is_ready()` answers true: the tasks before it are popped and
pushed to the back (waiting ones aged by `counter = (counter >> 1) + priority`,
inside `notReadyAdvance`), then `t` is installed — its saved context is copied
into the exception context, it is marked `RUNNING`, and it sits at the front
of the resulting queue, ending the pass with the old `tpidr` returned.
When no popped task is ready, the pass rotates the whole queue once (each
task advanced by `notReadyAdvance`) and returns 0 with the context untouched. -/
theorem schedule_pass (run : P → TaskData → Bool × TaskData)
    (ec : ExceptionContext) (pre post : List (Task P)) (t : Task P)
    (hpre : ∀ u ∈ pre, (Task.is_ready run u).1 = false)
    (ht : (Task.is_ready run t).1 = true) :
    schedule run ec (pre ++ t :: post) =
      ({ (Task.is_ready run t).2 with state := .RUNNING } ::
          (post ++ pre.map (notReadyAdvance run)),
        (Task.is_ready run t).2.context, ec.tpidr) ∧
    (∀ (ec2 : ExceptionContext) (q2 : List (Task P)),
      (∀ u ∈ q2, (Task.is_ready run u).1 = false) →
      schedule run ec2 q2 = (q2.map (notReadyAdvance run), ec2, 0)) :=
  ⟨schedule_install run ec pre post t hpre ht,
   fun ec2 q2 hall => schedule_all_notReady run ec2 q2 hall⟩

/-- Witness for `schedule_pass`: a waiting task whose predicate answers false
is aged from counter 4 to 3 and rotated to the back, then the ready task
behind it is installed at the front with the context switched to it. -/
theorem schedule_pass_witness :
    schedule runU (ctx 7) [task0 3 (.WAITING ()) 4 1, task0 2 .READY 0 1] =
      ([{ task0 2 .READY 0 1 with state := .RUNNING },
        { task0 3 (.WAITING ()) 4 1 with counter := 3 }], ctx 2, 7) ∧
    schedule runU (ctx 7) [task0 5 .ZOMBIE 2 1] =
      ([task0 5 .ZOMBIE 2 1], ctx 7, 0) := by
  have h := schedule_pass runU (ctx 7) [task0 3 (.WAITING ()) 4 1] []
    (task0 2 .READY 0 1) (by decide) (by decide)
  constructor
  · have h1 := h.1
    simpa [task0, ctx, notReadyAdvance, Task.is_ready, Task.is_waiting,
      Task.withData, Task.data, runU, wrap8, asr1] using h1
  · have h2 := h.2 (ctx 7) [task0 5 .ZOMBIE 2 1] (by decide)
    simpa [notReadyAdvance, Task.is_ready, Task.is_waiting] using h2

/-! ### C3: no bootstrap task is synthesised -/

/-- C3 counterexample. First tick after `init()` with one added task
(pid 2) and an incoming context whose `tpidr` (0) matches no task:
`deschedule` hands the queue back unchanged and answers `true` (the caller
proceeds to the `schedule` retry loop). No synthetic task with pid 1 — or
any new task — is constructed, contradicting the claim that one is inserted
at the front and that the call returns without switching. -/
theorem deschedule_no_bootstrap_counterexample :
    deschedule .READY (ctx 0) [task0 2 .READY 0 1] =
      ([task0 2 .READY 0 1], true) ∧
    ¬ (∃ t ∈ (deschedule .READY (ctx 0)
        [task0 2 .READY 0 1]).1, t.pid = 1) := by
  constructor
  · rfl
  · decide

/-- C3 amended. When no task in the queue has `pid = ec.tpidr` (as on the
first tick after `init()`, where the kernel thread has no Task record),
`deschedule` leaves the queue unchanged, constructs no task, and returns
`true`, so the scheduler proceeds to a switch attempt. -/
theorem deschedule_no_match (us : TaskState P) (ec : ExceptionContext)
    (q : List (Task P)) (h : ∀ u ∈ q, u.pid ≠ ec.tpidr) :
    deschedule us ec q = (q, true) := by
  have h0 := @deschedule_append_no_match P us ec q [] h
  simpa [deschedule] using h0

/-- Witness for `deschedule_no_match` on the first-tick queue. -/
theorem deschedule_no_match_witness :
    deschedule .READY (ctx 0) [task0 2 .READY 0 1, task0 3 .READY 0 1] =
      ([task0 2 .READY 0 1, task0 3 .READY 0 1], true) :=
  deschedule_no_match .READY (ctx 0) _ (by decide)

/-! ### C4: what exit really leaves in the queue -/

theorem exitTaskGo_split (pre post : List (Task P)) (t : Task P) (tp : Nat)
    (hpre : ∀ u ∈ pre, u.pid ≠ tp) (ht : t.pid = tp) :
    exitTaskGo (pre ++ t :: post) tp = pre ++ t.exit :: post := by
  induction pre with
  | nil => simp [exitTaskGo, ht]
  | cons u pre ih =>
    have hu : u.pid ≠ tp := hpre u (List.mem_cons_self u pre)
    have ih' := ih (fun v hv => hpre v (List.mem_cons_of_mem u hv))
    rw [List.cons_append, exitTaskGo, if_neg hu, ih', List.cons_append]

theorem is_ready_zombie (run : P → TaskData → Bool × TaskData) {u : Task P}
    (hu : u.state = .ZOMBIE) : Task.is_ready run u = (false, u) := by
  simp [Task.is_ready, hu]

theorem notReadyAdvance_zombie (run : P → TaskData → Bool × TaskData)
    {u : Task P} (hu : u.state = .ZOMBIE) : notReadyAdvance run u = u := by
  simp [notReadyAdvance, is_ready_zombie run hu, Task.is_waiting, hu]

theorem exists_first_ready (run : P → TaskData → Bool × TaskData)
    (q : List (Task P)) :
    (∃ pre t post, q = pre ++ t :: post ∧
      (∀ u ∈ pre, (Task.is_ready run u).1 = false) ∧
      (Task.is_ready run t).1 = true) ∨
    (∀ u ∈ q, (Task.is_ready run u).1 = false) := by
  induction q with
  | nil => right; simp
  | cons u q ih =>
    by_cases hu : (Task.is_ready run u).1 = true
    · exact Or.inl ⟨[], u, q, by simp, by simp, hu⟩
    · have hu' : (Task.is_ready run u).1 = false := by
        simpa using hu
      rcases ih with ⟨pre, t, post, hq, hpre, ht⟩ | hall
      · refine Or.inl ⟨u :: pre, t, post, by rw [hq, List.cons_append], ?_, ht⟩
        intro v hv
        rcases List.mem_cons.mp hv with hv | hv
        · rw [hv]; exact hu'
        · exact hpre v hv
      · refine Or.inr fun v hv => ?_
        rcases List.mem_cons.mp hv with hv | hv
        · rw [hv]; exact hu'
        · exact hall v hv

/-- A zombie is never evicted by a scheduling pass: it is popped, left
untouched by `notReadyAdvance`, and pushed back into the queue. -/
theorem zombie_mem_schedule (run : P → TaskData → Bool × TaskData)
    (ec2 : ExceptionContext) (q2 : List (Task P)) (u : Task P)
    (hu : u.state = .ZOMBIE) (hm : u ∈ q2) : u ∈ (schedule run ec2 q2).1 := by
  rcases exists_first_ready run q2 with ⟨pre, t, post, hq, hpre, ht⟩ | hall
  · rw [hq, schedule_install run ec2 pre post t hpre ht]
    have hut : u ≠ t := by
      intro he
      rw [← he, is_ready_zombie run hu] at ht
      simp at ht
    rw [hq] at hm
    rcases List.mem_append.mp hm with hm | hm
    · exact List.mem_cons_of_mem _ (List.mem_append.mpr (Or.inr
        (List.mem_map.mpr ⟨u, hm, notReadyAdvance_zombie run hu⟩)))
    · rcases List.mem_cons.mp hm with hm | hm
      · exact absurd hm hut
      · exact List.mem_cons_of_mem _ (List.mem_append.mpr (Or.inl hm))
  · rw [schedule_all_notReady run ec2 q2 hall]
    exact List.mem_map.mpr ⟨u, hm, notReadyAdvance_zombie run hu⟩

/-- C4 counterexample. A running task (pid 2, counter 5) calls exit. After
`Scheduler::exit_task` it sits in the queue as a `ZOMBIE` with
`counter = 1` — not 0: `Task::exit` zeroes the counter but the subsequent
`deschedule` resets it to 1 — and the next scheduling pass does not evict
it: the queue still contains the zombie afterwards. -/
theorem exit_task_counterexample :
    Scheduler.exit_task (ctx 2) [task0 2 .RUNNING 5 1] =
      ([task0 2 .ZOMBIE 1 0], true) ∧
    (task0 2 .ZOMBIE 1 0).counter ≠ 0 ∧
    schedule runU (ctx 2) [task0 2 .ZOMBIE 1 0] =
      ([task0 2 .ZOMBIE 1 0], ctx 2, 0) := by
  refine ⟨rfl, by decide, rfl⟩

/-- C4 amended. After a task calls exit, `Scheduler::exit_task` leaves it in
the queue as a `ZOMBIE` with `counter = 1` and `priority = 0` (`Task::exit`
zeroes both; the `deschedule` that follows resets the counter to 1), moved
to the back with the incoming frame saved. Scheduling passes never evict it
— a zombie popped from the queue is pushed back unchanged — and its
`is_ready()` is always false, so the task never returns from the ready
queue. Its freed stack is reclaimed by the allocator (not modelled). -/
theorem exit_task_zombie (ec : ExceptionContext) (pre post : List (Task P))
    (t : Task P) (hpre : ∀ u ∈ pre, u.pid ≠ ec.tpidr)
    (ht : t.pid = ec.tpidr) :
    Scheduler.exit_task ec (pre ++ t :: post) =
      ((pre ++ post) ++
        [{ t with state := .ZOMBIE, counter := 1, priority := 0, context := ec }],
        true) ∧
    (∀ run : P → TaskData → Bool × TaskData,
      (Task.is_ready run
        { t with state := .ZOMBIE, counter := 1, priority := 0, context := ec }).1
        = false) ∧
    (∀ (run : P → TaskData → Bool × TaskData) (ec2 : ExceptionContext)
        (q2 : List (Task P)),
      { t with state := .ZOMBIE, counter := 1, priority := 0, context := ec } ∈ q2 →
      { t with state := .ZOMBIE, counter := 1, priority := 0, context := ec } ∈
        (schedule run ec2 q2).1) := by
  refine ⟨?_, fun run => by rw [is_ready_zombie run rfl],
    fun run ec2 q2 hm => zombie_mem_schedule run ec2 q2 _ rfl hm⟩
  rw [Scheduler.exit_task, exitTaskGo_split pre post t ec.tpidr hpre ht,
    deschedule_append_no_match _ (by simpa using hpre),
    deschedule_cons_zombie post (by simpa [Task.exit] using ht)]
  simp [Task.exit]

/-- Witness for `exit_task_zombie` at a concrete queue. -/
theorem exit_task_zombie_witness :
    Scheduler.exit_task (ctx 3) [task0 2 .READY 1 1, task0 3 .RUNNING 4 1] =
      ([task0 2 .READY 1 1, task0 3 .ZOMBIE 1 0], true) := by
  have h := exit_task_zombie (ctx 3) [task0 2 .READY 1 1] []
    (task0 3 .RUNNING 4 1) (by decide) rfl
  simpa [task0, ctx] using h.1

/-! ### C9: schedule's return value and the retry loops -/

theorem is_ready_running (run : P → TaskData → Bool × TaskData) {u : Task P}
    (hu : u.state = .RUNNING) : Task.is_ready run u = (false, u) := by
  simp [Task.is_ready, hu]

theorem notReadyAdvance_running (run : P → TaskData → Bool × TaskData)
    {u : Task P} (hu : u.state = .RUNNING) : notReadyAdvance run u = u := by
  simp [notReadyAdvance, is_ready_running run hu, Task.is_waiting, hu]

/-- The retry loop never breaks on a queue holding a single `RUNNING` task:
every pass rotates it back and returns 0. -/
theorem scheduleLoop_single_running (run : P → TaskData → Bool × TaskData)
    (t : Task P) (hu : t.state = .RUNNING) :
    ∀ (fuel : Nat) (ec : ExceptionContext),
      scheduleLoop run fuel ec [t] = none := by
  intro fuel
  induction fuel with
  | zero => intro ec; rfl
  | succ f ih =>
    intro ec
    have hs : schedule run ec [t] = ([t], ec, 0) := by
      have h := schedule_all_notReady run ec [t]
        (by intro u hu'; rw [List.mem_singleton.mp hu', is_ready_running run hu])
      simpa [notReadyAdvance_running run hu] using h
    rw [scheduleLoop, hs]
    simpa using ih ec

/-- C9. `Scheduler::schedule` returns the `tpidr` of the exception context it
was handed — read before the context is overwritten — when it installs the
first ready task, and 0 when no task in a full rotation is ready.
Consequently a call made with `tpidr = 0` returns 0 even though it installed
a task, so the `> 0` break check in the `GlobalScheduler::switch` and
`GlobalScheduler::exit_task` retry loops never fires: with a single runnable
task those loops run forever (`none` for every fuel bound). -/
theorem schedule_returns_incoming_tpidr (run : P → TaskData → Bool × TaskData)
    (ec : ExceptionContext) (pre post : List (Task P)) (t : Task P)
    (hpre : ∀ u ∈ pre, (Task.is_ready run u).1 = false)
    (ht : (Task.is_ready run t).1 = true) :
    (schedule run ec (pre ++ t :: post)).2.2 = ec.tpidr ∧
    (∀ (ec2 : ExceptionContext) (q2 : List (Task P)),
      (∀ u ∈ q2, (Task.is_ready run u).1 = false) →
      (schedule run ec2 q2).2.2 = 0) ∧
    (∀ (t2 : Task P) (ec2 : ExceptionContext),
      t2.state = .READY → ec2.tpidr = 0 →
      (schedule run ec2 [t2]).2.2 = 0 ∧
      ∀ fuel : Nat,
        scheduleLoop run fuel ec2 [t2] = none ∧
        (t2.pid ≠ 0 →
          GlobalScheduler.switch run fuel .READY ec2 [t2] = none ∧
          GlobalScheduler.exit_task run fuel ec2 [t2] = none)) := by
  have hready : ∀ (u : Task P), u.state = .READY →
      Task.is_ready run u = (true, u) := fun u hu => by
    simp [Task.is_ready, hu]
  have hloop : ∀ (t2 : Task P) (ec2 : ExceptionContext),
      t2.state = .READY → ec2.tpidr = 0 →
      ∀ fuel : Nat, scheduleLoop run fuel ec2 [t2] = none := by
    intro t2 ec2 h2 h0 fuel
    cases fuel with
    | zero => rfl
    | succ f =>
      have hs : schedule run ec2 [t2] =
          ([{ t2 with state := .RUNNING }], t2.context, ec2.tpidr) := by
        have h := schedule_install run ec2 [] [] t2 (by simp)
          (by rw [hready t2 h2])
        simpa [hready t2 h2] using h
      rw [scheduleLoop, hs, h0]
      simpa using scheduleLoop_single_running run _ rfl f t2.context
  refine ⟨?_, ?_, ?_⟩
  · rw [schedule_install run ec pre post t hpre ht]
  · intro ec2 q2 hall
    rw [schedule_all_notReady run ec2 q2 hall]
  · intro t2 ec2 h2 h0
    constructor
    · have h := schedule_install run ec2 [] [] t2 (by simp)
        (by rw [hready t2 h2])
      simp only [List.nil_append] at h
      rw [h]
      exact h0
    · intro fuel
      refine ⟨hloop t2 ec2 h2 h0 fuel, fun hpid => ⟨?_, ?_⟩⟩
      · rw [GlobalScheduler.switch,
          deschedule_no_match .READY ec2 [t2]
            (by intro u hu'; rw [List.mem_singleton.mp hu', h0]; exact hpid)]
        simpa using hloop t2 ec2 h2 h0 fuel
      · rw [GlobalScheduler.exit_task, Scheduler.exit_task]
        have hgo : exitTaskGo [t2] ec2.tpidr = [t2] := by
          rw [h0]
          simp [exitTaskGo, hpid]
        rw [hgo, deschedule_no_match .ZOMBIE ec2 [t2]
          (by intro u hu'; rw [List.mem_singleton.mp hu', h0]; exact hpid)]
        simpa using hloop t2 ec2 h2 h0 fuel

/-- Witness for `schedule_returns_incoming_tpidr`: with one ready task
(pid 2) and incoming `tpidr = 0`, schedule returns 0 and the retry loops
answer `none` at fuel 5. -/
theorem schedule_returns_incoming_tpidr_witness :
    (schedule runU (ctx 0) [task0 2 .READY 0 1]).2.2 = 0 ∧
    scheduleLoop runU 5 (ctx 0) [task0 2 .READY 0 1] = none ∧
    GlobalScheduler.switch runU 5 .READY (ctx 0) [task0 2 .READY 0 1] = none ∧
    GlobalScheduler.exit_task runU 5 (ctx 0) [task0 2 .READY 0 1] = none := by
  have h := schedule_returns_incoming_tpidr runU (ctx 0) [] []
    (task0 2 .READY 0 1) (by simp) (by decide)
  have h3 := h.2.2 (task0 2 .READY 0 1) (ctx 0) rfl rfl
  have h5 := (h3.2 5).2 (by decide)
  exact ⟨h3.1, (h3.2 5).1, h5.1, h5.2⟩

/-! ### C5: the sleep predicate -/

/-- C5. A task calling `sleep(ms)` at instant `now` is moved to the back of
the queue in state `Waiting(pred)` with `pred` capturing `begin = now` and
`target = now + ms` milliseconds (`sleep_task` passes exactly this update
state to `GlobalScheduler::switch`, whose `deschedule` stores it). The
predicate answers true exactly when the poll instant exceeds the target; in
that case it writes 0 into the saved context's `x7` and the elapsed
milliseconds into `x0`, and — whenever the elapsed-millisecond count fits in
`u64`, so the cast does not wrap — `x0 ≥ ms`, never less. -/
theorem sleep_task_spec (now ms : Nat) (ec : ExceptionContext)
    (pre post : List (Task SleepPred)) (t : Task SleepPred)
    (hpre : ∀ u ∈ pre, u.pid ≠ ec.tpidr) (ht : t.pid = ec.tpidr) :
    deschedule (.WAITING (mkSleepPred now ms)) ec (pre ++ t :: post) =
      ((pre ++ post) ++
        [{ t with counter := 1, state := .WAITING (mkSleepPred now ms), context := ec }],
        true) ∧
    (∀ (current : Nat) (d : TaskData),
      (runSleepPred current (mkSleepPred now ms) d).1 = true ↔
        now + ms * 1000000 < current) ∧
    (∀ (current : Nat) (d : TaskData), now + ms * 1000000 < current →
      ∃ d2 : TaskData,
        runSleepPred current (mkSleepPred now ms) d = (true, d2) ∧
        d2.context.gpr 7 = 0 ∧
        d2.context.gpr 0 = ((current - now) / 1000000) % 2 ^ 64 ∧
        ((current - now) / 1000000 < 2 ^ 64 → ms ≤ d2.context.gpr 0)) := by
  refine ⟨?_, ?_, ?_⟩
  · rw [deschedule_append_no_match _ hpre, deschedule_cons_waiting _ post ht,
      List.append_assoc]
  · intro current d
    simp only [runSleepPred, mkSleepPred]
    split_ifs with hc
    · simpa using hc
    · simpa using hc
  · intro current d hcur
    have hcond : (mkSleepPred now ms).target_time < current := by
      simpa [mkSleepPred] using hcur
    refine ⟨{ d with context := { d.context with gpr := Function.update (Function.update d.context.gpr 7 0) 0 (((current - now) / 1000000) % 2 ^ 64) } },
      by rw [runSleepPred, if_pos hcond]; rfl, ?_, ?_, ?_⟩
    · show Function.update (Function.update d.context.gpr 7 0) 0
        (((current - now) / 1000000) % 2 ^ 64) 7 = 0
      rw [Function.update_noteq (by decide), Function.update_same]
    · show Function.update (Function.update d.context.gpr 7 0) 0
        (((current - now) / 1000000) % 2 ^ 64) 0 = ((current - now) / 1000000) % 2 ^ 64
      rw [Function.update_same]
    · intro hfit
      show ms ≤ Function.update (Function.update d.context.gpr 7 0) 0
        (((current - now) / 1000000) % 2 ^ 64) 0
      rw [Function.update_same, Nat.mod_eq_of_lt hfit,
        Nat.le_div_iff_mul_le (by norm_num)]
      omega

/-- Witness for `sleep_task_spec`: `sleep(50)` issued at instant 0, polled at
instant 50 000 001 ns; the task was parked waiting, the predicate fires, and
the saved frame gets `x7 = 0`, `x0 = 50 ≥ 50`. -/
theorem sleep_task_spec_witness :
    deschedule (.WAITING (mkSleepPred 0 50)) (ctx 2)
        [taskS 2 .RUNNING 5 1] =
      ([{ taskS 2 .RUNNING 5 1 with counter := 1, state := .WAITING (mkSleepPred 0 50), context := ctx 2 }],
        true) ∧
    (runSleepPred 50000001 (mkSleepPred 0 50) (taskS 2 .RUNNING 5 1).data).1
      = true ∧
    ∃ d2 : TaskData,
      runSleepPred 50000001 (mkSleepPred 0 50) (taskS 2 .RUNNING 5 1).data =
        (true, d2) ∧
      d2.context.gpr 7 = 0 ∧ d2.context.gpr 0 = 50 ∧ 50 ≤ d2.context.gpr 0 := by
  have h := sleep_task_spec 0 50 (ctx 2) [] [] (taskS 2 .RUNNING 5 1)
    (by simp) rfl
  refine ⟨by simpa using h.1, ?_, ?_⟩
  · exact (h.2.1 50000001 (taskS 2 .RUNNING 5 1).data).mpr (by norm_num)
  · obtain ⟨d2, heq, h7, h0v, hge⟩ :=
      h.2.2 50000001 (taskS 2 .RUNNING 5 1).data (by norm_num)
    have h50 : ((50000001 - 0) / 1000000) % 2 ^ 64 = 50 := by norm_num
    exact ⟨d2, heq, h7, by rw [h0v, h50], hge (by norm_num)⟩

/-! ### C6: the pending-IRQ iterator -/

theorem ctzF_le (f : Nat) : ∀ m, ctzF f m ≤ f := by
  induction f with
  | zero => intro m; simp [ctzF]
  | succ f ih =>
    intro m
    rw [ctzF]
    split
    · exact Nat.zero_le _
    · exact Nat.succ_le_succ (ih (m / 2))

theorem testBit_false_of_lt_ctzF (f : Nat) :
    ∀ m i, i < ctzF f m → m.testBit i = false := by
  induction f with
  | zero => intro m i h; simp [ctzF] at h
  | succ f ih =>
    intro m i h
    rw [ctzF] at h
    by_cases hodd : m % 2 = 1
    · rw [if_pos hodd] at h; omega
    · rw [if_neg hodd] at h
      cases i with
      | zero => simp [Nat.testBit_zero, hodd]
      | succ i =>
        rw [Nat.testBit_add_one]
        exact ih (m / 2) i (by omega)

theorem testBit_ctzF_true (f : Nat) :
    ∀ m, ctzF f m < f → m.testBit (ctzF f m) = true := by
  induction f with
  | zero => intro m h; omega
  | succ f ih =>
    intro m h
    by_cases hodd : m % 2 = 1
    · rw [ctzF, if_pos hodd]
      simp [Nat.testBit_zero, hodd]
    · rw [ctzF, if_neg hodd] at h ⊢
      rw [Nat.testBit_add_one]
      exact ih (m / 2) (by omega)

theorem ctzF_zero (f : Nat) : ctzF f 0 = f := by
  induction f with
  | zero => rfl
  | succ f ih => rw [ctzF]; simp [ih]

theorem cttz64_lt (m : Nat) (h0 : m ≠ 0) (hm : m < 2 ^ 64) : cttz64 m < 64 := by
  rcases Nat.lt_or_ge (cttz64 m) 64 with h | h
  · exact h
  · exfalso
    have h64 : cttz64 m = 64 := le_antisymm (ctzF_le 64 m) h
    apply h0
    apply Nat.eq_of_testBit_eq
    intro i
    rw [Nat.zero_testBit]
    by_cases hi : i < 64
    · exact testBit_false_of_lt_ctzF 64 m i
        (by rw [show ctzF 64 m = cttz64 m from rfl, h64]; exact hi)
    · exact Nat.testBit_lt_two_pow
        (lt_of_lt_of_le hm (Nat.pow_le_pow_right (by norm_num) (by omega)))

theorem testBit_not64_shift {n : Nat} (hn : n < 64) (j : Nat) :
    (not64 (1 <<< n)).testBit j = (decide (j < 64) && !(decide (j = n))) := by
  rw [not64, Nat.testBit_xor, Nat.testBit_shiftLeft,
    Nat.testBit_two_pow_sub_one]
  by_cases hj : j = n
  · subst hj
    simp [Nat.testBit_one_eq_true_iff_self_eq_zero, hn]
  · by_cases hjn : n ≤ j
    · have hne : j - n ≠ 0 := by omega
      have hfb : Nat.testBit 1 (j - n) = false := by
        cases hb : Nat.testBit 1 (j - n)
        · rfl
        · exact absurd (Nat.testBit_one_eq_true_iff_self_eq_zero.mp hb) hne
      simp [hj, hjn, hfb]
    · have hj64 : j < 64 := by omega
      simp [hj, hjn, hj64]

theorem clearBit_spec {m n : Nat} (hm : m < 2 ^ 64) (hn : n < 64) (j : Nat) :
    (m &&& not64 (1 <<< n)).testBit j = (m.testBit j && !(decide (j = n))) := by
  rw [Nat.testBit_and, testBit_not64_shift hn j]
  by_cases hj : j < 64
  · simp [hj]
  · have hb : m.testBit j = false := Nat.testBit_lt_two_pow
      (lt_of_lt_of_le hm (Nat.pow_le_pow_right (by norm_num) (by omega)))
    simp [hb]

theorem setBitPositions_step (m : Nat) (h0 : m ≠ 0) (hm : m < 2 ^ 64) :
    setBitPositions m =
      cttz64 m :: setBitPositions (m &&& not64 (1 <<< cttz64 m)) := by
  set n := cttz64 m with hn
  have hn64 : n < 64 := cttz64_lt m h0 hm
  have hbit : m.testBit n = true := testBit_ctzF_true 64 m hn64
  have hlow : ∀ j, j < n → m.testBit j = false := fun j hj =>
    testBit_false_of_lt_ctzF 64 m j hj
  have hm2 : ∀ j, (m &&& not64 (1 <<< n)).testBit j =
      (m.testBit j && !(decide (j = n))) := clearBit_spec hm hn64
  have hsplit : List.range 64 =
      List.range' 0 n ++ (n :: List.range' (n + 1) (63 - n)) := by
    rw [List.range_eq_range', show (64 : Nat) = (64 - n) + n by omega,
      ← List.range'_append_1 0 n (64 - n), Nat.zero_add,
      show 64 - n = (63 - n) + 1 by omega, List.range'_succ]
  have hmemlow : ∀ j ∈ List.range' 0 n, j < n := by
    intro j hj
    rcases List.mem_range'.mp hj with ⟨i, hi, rfl⟩
    omega
  have hmemhigh : ∀ j ∈ List.range' (n + 1) (63 - n), n + 1 ≤ j := by
    intro j hj
    rcases List.mem_range'.mp hj with ⟨i, hi, rfl⟩
    omega
  have e1 : (List.range' 0 n).filter (fun i => m.testBit i) = [] :=
    List.filter_eq_nil_iff.mpr (fun a ha => by
      simp [hlow a (hmemlow a ha)])
  have e2 : List.filter (fun i => m.testBit i)
      (n :: List.range' (n + 1) (63 - n)) =
      n :: List.filter (fun i => m.testBit i) (List.range' (n + 1) (63 - n)) :=
    List.filter_cons_of_pos (by simp [hbit])
  have e3 : (List.range' 0 n).filter
      (fun i => (m &&& not64 (1 <<< n)).testBit i) = [] :=
    List.filter_eq_nil_iff.mpr (fun a ha => by
      rw [hm2 a]
      simp [hlow a (hmemlow a ha)])
  have e4 : List.filter (fun i => (m &&& not64 (1 <<< n)).testBit i)
      (n :: List.range' (n + 1) (63 - n)) =
      List.filter (fun i => (m &&& not64 (1 <<< n)).testBit i)
        (List.range' (n + 1) (63 - n)) :=
    List.filter_cons_of_neg (by rw [hm2 n]; simp)
  have e5 : List.filter (fun i => m.testBit i)
      (List.range' (n + 1) (63 - n)) =
      List.filter (fun i => (m &&& not64 (1 <<< n)).testBit i)
        (List.range' (n + 1) (63 - n)) :=
    List.filter_congr (fun j hj => by
      have hjn : j ≠ n := by have := hmemhigh j hj; omega
      rw [hm2 j]
      simp [hjn])
  rw [setBitPositions, setBitPositions, hsplit, List.filter_append,
    List.filter_append, e1, e2, e3, e4, e5]
  simp

theorem pendingRun_spec (f : Nat) :
    ∀ m, m < 2 ^ 64 → (setBitPositions m).length ≤ f →
      pendingRun f m = (setBitPositions m, 0) := by
  induction f with
  | zero =>
    intro m hm hlen
    have hnil : setBitPositions m = [] := List.length_eq_zero.mp (by omega)
    have hm0 : m = 0 := by
      apply Nat.eq_of_testBit_eq
      intro i
      rw [Nat.zero_testBit]
      by_cases hi : i < 64
      · by_contra hbit
        have hib : m.testBit i = true := by
          revert hbit; cases m.testBit i <;> simp
        have hmem : i ∈ setBitPositions m := List.mem_filter.mpr
          ⟨List.mem_range.mpr hi, by simp [hib]⟩
        rw [hnil] at hmem
        simp at hmem
      · exact Nat.testBit_lt_two_pow
          (lt_of_lt_of_le hm (Nat.pow_le_pow_right (by norm_num) (by omega)))
    rw [pendingRun, hnil, hm0]
  | succ f ih =>
    intro m hm hlen
    by_cases h0 : m = 0
    · subst h0
      have hnone : pendingNext 0 = none := by
        rw [pendingNext]
        simp [cttz64, ctzF_zero]
      rw [pendingRun, hnone]
      simp [setBitPositions]
    · have hn64 : cttz64 m < 64 := cttz64_lt m h0 hm
      have hnext : pendingNext m =
          some (cttz64 m, m &&& not64 (1 <<< cttz64 m)) := by
        rw [pendingNext]
        exact if_neg (by omega)
      have hstep := setBitPositions_step m h0 hm
      have hm2lt : m &&& not64 (1 <<< cttz64 m) < 2 ^ 64 :=
        lt_of_le_of_lt Nat.and_le_left hm
      have hlen2 : (setBitPositions (m &&& not64 (1 <<< cttz64 m))).length ≤ f := by
        have hl := congrArg List.length hstep
        simp only [List.length_cons] at hl
        omega
      rw [pendingRun, hnext]
      show (cttz64 m :: (pendingRun f (m &&& not64 (1 <<< cttz64 m))).1,
        (pendingRun f (m &&& not64 (1 <<< cttz64 m))).2) = (setBitPositions m, 0)
      rw [ih _ hm2lt hlen2, hstep]

/-- C6. For every `u64` mask `m`, iterating `PendingIRQs(m)` yields exactly
the positions of the set bits of `m` in ascending order, each position once,
and terminates: the final bitmask after at most 64 `next` calls is 0 and the
following `next` answers `None`. -/
theorem pendingIRQs_spec (m : Nat) (hm : m < 2 ^ 64) :
    PendingIRQs m = (List.range 64).filter (fun i => m.testBit i) ∧
    (∀ i : Nat, i ∈ PendingIRQs m ↔ m.testBit i = true) ∧
    List.Pairwise (fun a b : Nat => a < b) (PendingIRQs m) ∧
    (PendingIRQs m).Nodup ∧
    (pendingRun 64 m).2 = 0 ∧ pendingNext (pendingRun 64 m).2 = none := by
  have hrun := pendingRun_spec 64 m hm
    (le_trans (List.length_filter_le _ _) (by simp))
  have h1 : PendingIRQs m = setBitPositions m := by
    rw [PendingIRQs, hrun]
  have hpair : List.Pairwise (fun a b : Nat => a < b) (setBitPositions m) :=
    List.Pairwise.filter _ (List.sorted_lt_range 64)
  refine ⟨h1, ?_, ?_, ?_, ?_, ?_⟩
  · intro i
    rw [h1, setBitPositions, List.mem_filter]
    constructor
    · intro hmem
      simpa using hmem.2
    · intro hbit
      have hge := Nat.testBit_implies_ge hbit
      have hi : i < 64 := by
        by_contra hi64
        have : (2 : Nat) ^ 64 ≤ 2 ^ i :=
          Nat.pow_le_pow_right (by norm_num) (by omega)
        omega
      exact ⟨List.mem_range.mpr hi, by simp [hbit]⟩
  · rw [h1]; exact hpair
  · rw [h1]
    exact List.Pairwise.imp (fun hab => Nat.ne_of_lt hab) hpair
  · rw [hrun]
  · rw [hrun]
    rw [pendingNext]
    simp [cttz64, ctzF_zero]

/-- Witness for `pendingIRQs_spec` at the spec's seed mask: the iterator
yields `[0, 2, 61, 63]`. -/
theorem pendingIRQs_spec_witness :
    (0xA000000000000005 : Nat) < 2 ^ 64 ∧
    PendingIRQs 0xA000000000000005 = [0, 2, 61, 63] := by
  refine ⟨by norm_num, ?_⟩
  rw [(pendingIRQs_spec 0xA000000000000005 (by norm_num)).1]
  rfl

/-! ### C7: peripheral handler registration refuses duplicates -/

/-- C7. On an empty slot `register_handler(n, d1)` succeeds and stores `d1`;
a second call with the same `n` fails with
`"IRQ handler already registered"` and hands the table back unchanged, so
the first descriptor is not overwritten. -/
theorem peripheral_register_once {D : Type} (table : Fin 64 → Option D)
    (irq : Fin 64) (d1 d2 : D) (h : table irq = none) :
    PeripheralIC.register_handler table irq d1 =
      (Function.update table irq (some d1), .ok ()) ∧
    Function.update table irq (some d1) irq = some d1 ∧
    PeripheralIC.register_handler (Function.update table irq (some d1)) irq d2 =
      (Function.update table irq (some d1),
        .error "IRQ handler already registered") := by
  refine ⟨?_, Function.update_same irq (some d1) table, ?_⟩
  · rw [PeripheralIC.register_handler, if_neg (by simp [h])]
  · rw [PeripheralIC.register_handler,
      if_pos (by rw [Function.update_same]; rfl)]

/-- Witness for `peripheral_register_once` on the empty table at IRQ 57
(the PL011 UART number from the spec's seed scenario). -/
theorem peripheral_register_once_witness :
    PeripheralIC.register_handler (fun _ => (none : Option Nat)) 57 10 =
      (Function.update (fun _ => none) 57 (some 10), .ok ()) ∧
    PeripheralIC.register_handler
        (Function.update (fun _ => (none : Option Nat)) 57 (some 10)) 57 20 =
      (Function.update (fun _ => none) 57 (some 10),
        .error "IRQ handler already registered") := by
  have h := peripheral_register_once (fun _ => (none : Option Nat)) 57 10 20 rfl
  exact ⟨h.1, h.2.2⟩

/-! ### C10: local handler registration checks core 0 but writes the calling core -/

/-- C10. `LocalIC::register_handler` tests only core 0's table for an
existing registration but stores into the calling core's table: when core
0's slot is occupied the call fails on every core with
`"IRQ handler already registered"` and changes nothing; when core 0's slot
is free the call succeeds on any core — even if that core's own slot
already holds a handler — and overwrites that slot with the new
descriptor. -/
theorem local_register_core0_check {D : Type}
    (tables : Fin 4 → Fin 12 → Option D) (core : Fin 4) (irq : Fin 12)
    (d : D) :
    ((tables 0 irq).isSome = true →
      LocalIC.register_handler tables core irq d =
        (tables, .error "IRQ handler already registered")) ∧
    (tables 0 irq = none →
      LocalIC.register_handler tables core irq d =
        (Function.update tables core
          (Function.update (tables core) irq (some d)), .ok ()) ∧
      Function.update tables core
        (Function.update (tables core) irq (some d)) core irq = some d) := by
  constructor
  · intro hocc
    rw [LocalIC.register_handler, if_pos hocc]
  · intro hfree
    refine ⟨by rw [LocalIC.register_handler, if_neg (by simp [hfree])], ?_⟩
    rw [Function.update_same, Function.update_same]

/-- Witness for `local_register_core0_check`: core 1 already holds handler
99 for local IRQ 5 while core 0's slot 5 is free; registering handler 7 on
core 1 succeeds and silently replaces 99. -/
theorem local_register_core0_check_witness :
    (fun c i => if c = 1 ∧ i = 5 then some 99 else (none : Option Nat)) 1 5 =
      some 99 ∧
    (LocalIC.register_handler
      (fun c i => if c = 1 ∧ i = 5 then some 99 else (none : Option Nat))
      1 5 7).2 = .ok () ∧
    (LocalIC.register_handler
      (fun c i => if c = 1 ∧ i = 5 then some 99 else (none : Option Nat))
      1 5 7).1 1 5 = some 7 := by
  have h := (local_register_core0_check
    (fun c i => if c = 1 ∧ i = 5 then some 99 else (none : Option Nat))
    1 5 7).2 (by decide)
  exact ⟨by decide, by rw [h.1], by rw [h.1]; exact h.2⟩

/-! ### C8: page-descriptor layout -/

theorem mul_pow_or (k x y : Nat) :
    2 ^ k * (x ||| y) = 2 ^ k * x ||| 2 ^ k * y := by
  apply Nat.eq_of_testBit_eq
  intro j
  simp [Nat.testBit_mul_pow_two, Bool.and_or_distrib_left]

/-- Recombination of a PXN bit, a 32-bit output field at offset 16 and a
16-bit low part: the OR the register crate computes equals the plain sum. -/
theorem or_shift16_eq (p C o : Nat) (hp : p < 2) (hC : C < 2 ^ 16)
    (ho : o < 2 ^ 32) :
    (p * 2 ^ 53 + C) ||| o <<< 16 = p * 2 ^ 53 + o * 2 ^ 16 + C := by
  have h1 : p * 2 ^ 53 + C = 2 ^ 53 * p ||| C := by
    rw [Nat.mul_comm p]
    exact Nat.mul_add_lt_is_or (lt_of_lt_of_le hC (by norm_num)) p
  have h2 : o <<< 16 = 2 ^ 16 * o := by
    rw [Nat.shiftLeft_eq, Nat.mul_comm]
  have h3 : p * 2 ^ 53 + o * 2 ^ 16 + C =
      (2 ^ 53 * p ||| 2 ^ 16 * o) ||| C := by
    have h4 : (2 : Nat) ^ 37 * p + o = 2 ^ 37 * p ||| o :=
      Nat.mul_add_lt_is_or (lt_of_lt_of_le ho (by norm_num)) p
    have h5 : (2 : Nat) ^ 16 * (2 ^ 37 * p + o) + C =
        2 ^ 16 * (2 ^ 37 * p + o) ||| C :=
      Nat.mul_add_lt_is_or hC _
    calc p * 2 ^ 53 + o * 2 ^ 16 + C
        = 2 ^ 16 * (2 ^ 37 * p + o) + C := by ring
      _ = 2 ^ 16 * (2 ^ 37 * p + o) ||| C := h5
      _ = 2 ^ 16 * (2 ^ 37 * p ||| o) ||| C := by rw [h4]
      _ = (2 ^ 16 * (2 ^ 37 * p) ||| 2 ^ 16 * o) ||| C := by
          rw [mul_pow_or]
      _ = (2 ^ 53 * p ||| 2 ^ 16 * o) ||| C := by ring_nf
  rw [h1, h2, h3, Nat.or_assoc, Nat.or_comm C (2 ^ 16 * o), ← Nat.or_assoc]

/-- `PageDescriptor::new` as a plain sum of its disjoint fields. -/
theorem pageDescriptor_new_eq_aux (out : Nat) (af : AttributeFields) (C : Nat)
    (hC : ((1 ||| 1 <<< 10) ||| attrFieldValue af) ||| 1 <<< 1 =
      pxnVal af.execute_never * 2 ^ 53 + C) (hClt : C < 2 ^ 16) :
    PageDescriptor.new out af =
      pxnVal af.execute_never * 2 ^ 53 +
        ((out >>> 16) % 2 ^ 32) * 2 ^ 16 + C := by
  have ho : (out >>> 16) % 2 ^ 32 < 2 ^ 32 := Nat.mod_lt _ (by norm_num)
  have hp : pxnVal af.execute_never < 2 := by
    cases af.execute_never <;> simp [pxnVal]
  calc PageDescriptor.new out af
      = (((1 ||| 1 <<< 10) ||| attrFieldValue af) ||| 1 <<< 1) |||
          ((out >>> 16) % 2 ^ 32) <<< 16 := rfl
    _ = (pxnVal af.execute_never * 2 ^ 53 + C) |||
          ((out >>> 16) % 2 ^ 32) <<< 16 := by rw [hC]
    _ = _ := or_shift16_eq _ C _ hp hClt ho

/-- `PageDescriptor::new` as a plain sum, with the low constant spelled out:
`2^10 (AF) + SH*2^8 + AP*2^6 + AttrIndx*2^2 + 2 (TYPE) + 1 (VALID)`. -/
theorem pageDescriptor_new_eq (out : Nat) (af : AttributeFields) :
    PageDescriptor.new out af =
      pxnVal af.execute_never * 2 ^ 53 +
        ((out >>> 16) % 2 ^ 32) * 2 ^ 16 +
        (1027 + shVal af.mem_attributes * 256 + apVal af.acc_perms * 64 +
          attrIndxVal af.mem_attributes * 4) := by
  rcases af with ⟨ma, ap, xn⟩
  cases ma <;> cases ap <;> cases xn <;>
    exact pageDescriptor_new_eq_aux out _ _ (by decide) (by decide)

/-- The eight ARM descriptor fields of a freshly built page descriptor. -/
theorem pageDescriptor_bits (out : Nat) (af : AttributeFields) :
    bits (PageDescriptor.new out af) 0 1 = 1 ∧
    bits (PageDescriptor.new out af) 1 1 = 1 ∧
    bits (PageDescriptor.new out af) 10 1 = 1 ∧
    (out < 2 ^ 48 → bits (PageDescriptor.new out af) 16 32 = out >>> 16) ∧
    bits (PageDescriptor.new out af) 8 2 = shVal af.mem_attributes ∧
    bits (PageDescriptor.new out af) 6 2 = apVal af.acc_perms ∧
    bits (PageDescriptor.new out af) 2 3 = attrIndxVal af.mem_attributes ∧
    bits (PageDescriptor.new out af) 53 1 = pxnVal af.execute_never := by
  have hsum := pageDescriptor_new_eq out af
  have hs : shVal af.mem_attributes ≤ 3 := by
    cases af.mem_attributes <;> simp [shVal]
  have ha : apVal af.acc_perms ≤ 2 := by
    cases af.acc_perms <;> simp [apVal]
  have hi : attrIndxVal af.mem_attributes ≤ 1 := by
    cases af.mem_attributes <;> simp [attrIndxVal]
  have hp : pxnVal af.execute_never ≤ 1 := by
    cases af.execute_never <;> simp [pxnVal]
  refine ⟨?_, ?_, ?_, ?_, ?_, ?_, ?_, ?_⟩
  · simp only [bits, hsum, Nat.shiftRight_eq_div_pow]
    norm_num
    omega
  · simp only [bits, hsum, Nat.shiftRight_eq_div_pow]
    norm_num
    omega
  · simp only [bits, hsum, Nat.shiftRight_eq_div_pow]
    norm_num
    omega
  · intro hout
    have hout' : out < 281474976710656 := by
      have : (2 : Nat) ^ 48 = 281474976710656 := by norm_num
      omega
    simp only [bits, hsum, Nat.shiftRight_eq_div_pow]
    norm_num
    omega
  · simp only [bits, hsum, Nat.shiftRight_eq_div_pow]
    norm_num
    omega
  · simp only [bits, hsum, Nat.shiftRight_eq_div_pow]
    norm_num
    omega
  · simp only [bits, hsum, Nat.shiftRight_eq_div_pow]
    norm_num
    omega
  · simp only [bits, hsum, Nat.shiftRight_eq_div_pow]
    norm_num
    omega

theorem vap_isOk (L : KernelVirtualLayout) (v : Nat)
    (hv : ¬ v > L.max_virt_addr_inclusive) :
    ∃ pa, virt_addr_properties L v = .ok pa := by
  rw [virt_addr_properties, if_neg hv]
  cases hfind : L.inner.find? (fun i => i.containsAddr v) with
  | some i => exact ⟨_, rfl⟩
  | none => exact ⟨_, rfl⟩

/-- Every in-range virtual address of the two-level table fits below
`map::END`, so population succeeds whenever the layout covers the address
space, and the produced level-3 entries are exactly the page descriptors of
the layout lookups. -/
theorem populate_ok (L : KernelVirtualLayout) (lvl3Base : Nat → Nat)
    (hmax : mapEND ≤ L.max_virt_addr_inclusive) :
    populate_tt_entries L lvl3Base =
      .ok ⟨fun l2 => TableDescriptor.fromAddr (lvl3Base l2), lvl3Entry L⟩ := by
  rw [populate_tt_entries, if_pos]
  rw [List.all_eq_true]
  intro l2 hl2
  rw [List.all_eq_true]
  intro l3 hl3
  have h2 : l2 < ENTRIES_512_MIB := List.mem_range.mp hl2
  have h3 : l3 < 8192 := List.mem_range.mp hl3
  have h2' : l2 < 2 := by
    have hE : ENTRIES_512_MIB = 2 := by decide
    omega
  have hv : ¬ ((l2 <<< 29) + (l3 <<< 16)) > L.max_virt_addr_inclusive := by
    have hle : (l2 <<< 29) + (l3 <<< 16) ≤ mapEND := by
      simp only [Nat.shiftLeft_eq, mapEND]
      norm_num
      omega
    omega
  obtain ⟨pa, hpa⟩ := vap_isOk L _ hv
  rw [hpa]
  rfl

/-- The layout lookup at an MMIO address: when the descriptors before the
"Device MMIO" entry do not contain the address, the lookup identity-maps it
with Device / ReadWrite / execute-never attributes. -/
theorem vap_mmio (L : KernelVirtualLayout) (v : Nat)
    (hv : v ≤ L.max_virt_addr_inclusive)
    (pre suf : List RangeDescriptor)
    (hL : L.inner = pre ++ deviceMMIODescriptor :: suf)
    (hpre : ∀ r ∈ pre, r.containsAddr v = false)
    (hlo : 0x3F000000 ≤ v) (hhi : v ≤ 0x4000FFFF) :
    virt_addr_properties L v = .ok (v, ⟨.Device, .ReadWrite, true⟩) := by
  have hfind : L.inner.find? (fun i => i.containsAddr v) =
      some deviceMMIODescriptor := by
    rw [hL, List.find?_append,
      List.find?_eq_none.mpr (fun r hr => by simp [hpre r hr]),
      Option.none_or,
      List.find?_cons_of_pos _ (by
        simp [deviceMMIODescriptor, RangeDescriptor.containsAddr]
        omega)]
  rw [virt_addr_properties, if_neg (by omega), hfind]
  rfl

/-- C8. When `populate_tt_entries` succeeds, the level-3 entry for every
virtual address `v = (l2 << 29) + (l3 << 16)` is the page descriptor of the
layout lookup `(pa, attrs)` at `v`: a descriptor with `VALID = 1`,
`TYPE = Table (1)`, `AF = 1`, output-address field `pa >> 16` (for any
physical address below `2^48`, the ARM field width), and `SH`, `AP`,
`AttrIndx`, `PXN` the encodings of `attrs`. Whenever the lookup resolves to
Device memory the descriptor has `AttrIndx = DEVICE (0)` and
`SH = OuterShareable (0b10)`; in particular this holds for every address in
the MMIO range `[0x3F00_0000, 0x4000_FFFF]` whenever the layout's
descriptors before the "Device MMIO" entry do not cover the address (they
cover only the kernel image and heap, far below the MMIO base). -/
theorem populate_lvl3_spec (L : KernelVirtualLayout) (lvl3Base : Nat → Nat)
    (T : TranslationTables) (hpop : populate_tt_entries L lvl3Base = .ok T)
    (l2 l3 : Nat) (h2 : l2 < ENTRIES_512_MIB) (h3 : l3 < 8192) :
    ∃ pa af,
      virt_addr_properties L ((l2 <<< 29) + (l3 <<< 16)) = .ok (pa, af) ∧
      T.lvl3 l2 l3 = PageDescriptor.new pa af ∧
      bits (T.lvl3 l2 l3) 0 1 = 1 ∧
      bits (T.lvl3 l2 l3) 1 1 = 1 ∧
      bits (T.lvl3 l2 l3) 10 1 = 1 ∧
      (pa < 2 ^ 48 → bits (T.lvl3 l2 l3) 16 32 = pa >>> 16) ∧
      bits (T.lvl3 l2 l3) 8 2 = shVal af.mem_attributes ∧
      bits (T.lvl3 l2 l3) 6 2 = apVal af.acc_perms ∧
      bits (T.lvl3 l2 l3) 2 3 = attrIndxVal af.mem_attributes ∧
      bits (T.lvl3 l2 l3) 53 1 = pxnVal af.execute_never ∧
      (af.mem_attributes = .Device →
        bits (T.lvl3 l2 l3) 2 3 = 0 ∧ bits (T.lvl3 l2 l3) 8 2 = 2) ∧
      (∀ pre suf, L.inner = pre ++ deviceMMIODescriptor :: suf →
        (∀ r ∈ pre, r.containsAddr ((l2 <<< 29) + (l3 <<< 16)) = false) →
        0x3F000000 ≤ (l2 <<< 29) + (l3 <<< 16) →
        af = ⟨.Device, .ReadWrite, true⟩ ∧
          pa = (l2 <<< 29) + (l3 <<< 16)) := by
  have hcond : (List.range ENTRIES_512_MIB).all (fun l2 =>
      (List.range 8192).all (fun l3 =>
        exceptIsOk (virt_addr_properties L ((l2 <<< 29) + (l3 <<< 16))))) = true := by
    by_contra hc
    rw [populate_tt_entries, if_neg hc] at hpop
    exact absurd hpop (by simp)
  have hT : T = ⟨fun l2 => TableDescriptor.fromAddr (lvl3Base l2),
      lvl3Entry L⟩ := by
    rw [populate_tt_entries, if_pos hcond] at hpop
    exact (Except.ok.inj hpop).symm
  have hok : exceptIsOk (virt_addr_properties L ((l2 <<< 29) + (l3 <<< 16)))
      = true := by
    have h1 : ∀ a ∈ List.range ENTRIES_512_MIB,
        ((List.range 8192).all fun l3 =>
          exceptIsOk (virt_addr_properties L ((a <<< 29) + (l3 <<< 16))))
          = true := by
      simpa using hcond
    have hx : ∀ b ∈ List.range 8192,
        exceptIsOk (virt_addr_properties L ((l2 <<< 29) + (b <<< 16)))
          = true := by
      simpa using h1 l2 (List.mem_range.mpr h2)
    exact hx l3 (List.mem_range.mpr h3)
  cases hvap : virt_addr_properties L ((l2 <<< 29) + (l3 <<< 16)) with
  | error e => rw [hvap] at hok; simp [exceptIsOk] at hok
  | ok pa =>
    have hentry : T.lvl3 l2 l3 = PageDescriptor.new pa.1 pa.2 := by
      have e0 : T.lvl3 l2 l3 = lvl3Entry L l2 l3 := by rw [hT]
      rw [e0, lvl3Entry, hvap]
    have hbits := pageDescriptor_bits pa.1 pa.2
    have hvle : (l2 <<< 29) + (l3 <<< 16) ≤ L.max_virt_addr_inclusive := by
      by_contra hgt
      rw [virt_addr_properties, if_pos (by omega)] at hvap
      exact absurd hvap (by simp)
    have hvhi : (l2 <<< 29) + (l3 <<< 16) ≤ 0x4000FFFF := by
      have hE : ENTRIES_512_MIB = 2 := by decide
      have h2' : l2 < 2 := by omega
      simp only [Nat.shiftLeft_eq]
      norm_num
      omega
    refine ⟨pa.1, pa.2, by simp [hvap], hentry, ?_⟩
    rw [hentry]
    refine ⟨hbits.1, hbits.2.1, hbits.2.2.1, hbits.2.2.2.1,
      hbits.2.2.2.2.1, hbits.2.2.2.2.2.1, hbits.2.2.2.2.2.2.1,
      hbits.2.2.2.2.2.2.2, ?_, ?_⟩
    · intro hdev
      rw [hbits.2.2.2.2.2.2.1, hbits.2.2.2.2.1, hdev]
      exact ⟨rfl, rfl⟩
    · intro pre suf hL hpre hlo
      have := vap_mmio L _ hvle pre suf hL hpre hlo hvhi
      rw [hvap] at this
      have hpa := Except.ok.inj this
      exact ⟨congrArg Prod.snd hpa, congrArg Prod.fst hpa⟩

/-- Witness for `populate_lvl3_spec` on the statically known layout: entry
`(l2, l3) = (1, 8000)` covers MMIO address `0x3F40_0000`; its descriptor has
`AttrIndx = DEVICE (0)` and `SH = OuterShareable (0b10)`. -/
theorem populate_lvl3_spec_witness :
    populate_tt_entries mmioTestLayout (fun _ => 0) = .ok mmioTestTables ∧
    bits (mmioTestTables.lvl3 1 8000) 2 3 = 0 ∧
    bits (mmioTestTables.lvl3 1 8000) 8 2 = 2 := by
  have hpop : populate_tt_entries mmioTestLayout (fun _ => 0) =
      .ok mmioTestTables :=
    populate_ok mmioTestLayout (fun _ => 0) (le_refl _)
  obtain ⟨pa, af, hvap, hentry, _, _, _, _, hsh, _, hidx, _, hdev, hmmio⟩ :=
    populate_lvl3_spec mmioTestLayout (fun _ => 0) mmioTestTables hpop 1 8000
      (by decide) (by decide)
  obtain ⟨haf, hpa⟩ := hmmio [] [] rfl (by simp) (by decide)
  refine ⟨hpop, ?_, ?_⟩
  · rw [hidx, haf]
    rfl
  · rw [hsh, haf]
    rfl

end RustBerry
